import Mathlib

/-!
Shallow embedding of `src/todo_agent.py` (class `TodoCodeActAgent`).

Python strings are modelled as Lean `String`s; the string primitives the
source uses (`str.strip`, `str.splitlines`, `str.lower`, the substring
test `in`, and the bullet regex `^\s*[\d\-\*•]\s*` used with `re.match`)
are modelled explicitly over the character list so that they are
executable and amenable to proof.

Fallible operations (the LLM completion call, the delegate agent's `step`,
the file read of `/instruction/task.md`) are modelled as `Except String`
values supplied by an environment record `Env`; an `Except.error` value
models a raised Python exception.
-/

namespace TodoAgent

/-- Python `str.isspace`-style whitespace test for a single character,
modelling the characters the regex class `\s` and `str.strip` treat as
whitespace (restricted to the ASCII ones the source can meet). -/
def isSpaceChar (c : Char) : Bool :=
  c = ' ' ∨ c = '\t' ∨ c = '\n' ∨ c = '\r'

/-- Characters matched by the character class `[\d\-\*•]` of the bullet
regex in `_generate_todo`. -/
def isBulletChar (c : Char) : Bool :=
  c.isDigit || c = '-' || c = '*' || c = '•'

/-- `re.match(r'^\s*[\d\-\*•]\s*', line)` succeeds iff the first
non-whitespace character of `line` is a bullet character (the trailing
`\s*` always matches). -/
def isBulletLine (line : String) : Bool :=
  match line.data.dropWhile isSpaceChar with
  | [] => false
  | c :: _ => isBulletChar c

/-- Python `str.strip` on the character list: drop whitespace from both
ends. -/
def stripChars (l : List Char) : List Char :=
  ((l.dropWhile isSpaceChar).reverse.dropWhile isSpaceChar).reverse

/-- Python `str.strip`. -/
def pyStrip (s : String) : String :=
  ⟨stripChars s.data⟩

/-- Python `str.lower` (ASCII case folding). -/
def pyLower (s : String) : String :=
  ⟨s.data.map Char.toLower⟩

/-- Split a character list at newline characters. -/
def splitNl (l : List Char) : List (List Char) :=
  match l with
  | [] => [[]]
  | c :: rest =>
    if c = '\n' then [] :: splitNl rest
    else
      match splitNl rest with
      | [] => [[c]]
      | h :: t => (c :: h) :: t

/-- Python `str.splitlines` (for the `\n`-separated text the source
splits): the empty string yields no lines. -/
def pySplitlines (s : String) : List String :=
  if s.data = [] then [] else (splitNl s.data).map List.asString

/-- Substring search on character lists: `listContains l pat` is true iff
`pat` occurs contiguously inside `l`. -/
def listContains (l pat : List Char) : Bool :=
  match l with
  | [] => pat.isEmpty
  | x :: t => pat.isPrefixOf (x :: t) || listContains t pat

/-- Python `pat in s` (substring containment). -/
def pyContains (s pat : String) : Bool :=
  listContains s.data pat.data

/-- A `MessageAction` value: a textual message with a content string, a
source tag, and the `keep_details` flag the source sets on some
messages. -/
structure MessageAction where
  content : String
  source : String
  keep_details : Bool
deriving DecidableEq

/-- An action returned by the delegate agent: either a textual
`MessageAction` or some other (non-message) action, kept opaque except
for a text representation. -/
inductive AgentAction where
  | message (m : MessageAction)
  | other (tag : String)
deriving DecidableEq

/-- The wrapper's own mutable fields: the remaining-steps list `todo` and
the `_planning_done` flag. -/
structure AgentState where
  todo : List String
  planning_done : Bool
deriving DecidableEq

/-- The wrapper's collaborators: the result of reading the task blob at
`/instruction/task.md`, the LLM completion call (prompt to response
content), and the delegate `codeact.step` as a function of the history it
is handed. An `Except.error` value models a raised exception. -/
structure Env where
  taskRead : Except String String
  llm : String → Except String String
  delegate : List AgentAction → Except String AgentAction

/-- The planning prompt built by `_generate_todo` from the task string. -/
def buildPrompt (task : String) : String :=
  "You are a helpful assistant acting as a planner. " ++
  "Break down the following task into clear, ordered, and executable steps.\n" ++
  "Each step should be concise, start with a verb, and be actionable in a Linux environment.\n" ++
  "Return only the steps, one per line, without numbering or bullet symbols.\n\n" ++
  "Task: " ++ task ++ "\n\n" ++
  "Steps:"

/-- The fixed fallback plan returned by `_generate_todo` when the LLM call
raises. -/
def fallbackPlan : List String :=
  ["Understand the task and requirements",
   "Plan the next steps",
   "Use coding or shell tools to make progress",
   "Test the result",
   "Review and iterate"]

/-- The response parsing of `_generate_todo` on a successful completion:
strip the content, split into lines, keep a line iff its stripped form is
longer than 2 characters and the line does not match the bullet regex,
strip each kept line, drop literal `steps:` and `step:` headers
(case-insensitively), and keep at most 10 entries. -/
def parseSteps (content : String) : List String :=
  let stripped := pyStrip content
  let steps :=
    ((pySplitlines stripped).filter
      (fun line => (pyStrip line).length > 2 && !(isBulletLine line))).map pyStrip
  let steps := steps.filter (fun s => !(pyLower s = "steps:" || pyLower s = "step:"))
  steps.take 10

/-- `_generate_todo`: call the LLM once on the planning prompt; on success
parse the response into steps, and on any exception return the fixed
fallback plan. -/
def generateTodo (llm : String → Except String String) (task : String) : List String :=
  match llm (buildPrompt task) with
  | .ok content => parseSteps content
  | .error _ => fallbackPlan

/-- Step 1 of `step`: when `_planning_done` is not set, read the task blob
(a read failure propagates — the `open` is not inside a `try`), generate
the todo list from it when it is non-empty, and otherwise install the
minimal fallback plan; then set `_planning_done`. -/
def doPlanning (env : Env) (st : AgentState) : Except String AgentState :=
  if st.planning_done then .ok st
  else
    match env.taskRead with
    | .error e => .error e
    | .ok initial_task =>
      if initial_task ≠ "" then
        .ok { todo := generateTodo env.llm initial_task, planning_done := true }
      else
        .ok { todo := ["Analyze the task", "Ask for clarification"], planning_done := true }

/-- The synthetic planner instruction naming the current step and the
count of remaining steps. -/
def prefixMsg (current_step : String) (remaining : Nat) : String :=
  "[Planner] You are currently working on this step:\n" ++
  current_step ++ "\n\n" ++
  "Remaining steps: " ++ toString remaining ++ "\n" ++
  "Please use tools to make progress. When this step is fully done, say exactly: \x27STEP COMPLETED\x27."

/-- The synthetic instruction wrapped as a user message, as prepended to
the history handed to the delegate. -/
def syntheticMessage (current_step : String) (remaining : Nat) : AgentAction :=
  .message ⟨prefixMsg current_step remaining, "user", true⟩

/-- Step 4 of `step`: inspect the delegate's result. A raised exception
becomes an apology message and leaves the todo list unchanged; a
`MessageAction` whose stripped content contains `STEP COMPLETED` pops the
current step and is replaced by a progress (or final) message; any other
result is returned verbatim with the todo list unchanged. -/
def handleDelegate (st : AgentState) (current_step : String) (rest : List String) :
    Except String AgentAction → AgentState × AgentAction
  | .error _ =>
    (st, .message ⟨"Sorry, an error occurred while executing the step.", "agent", false⟩)
  | .ok (.message m) =>
    if pyContains (pyStrip m.content) "STEP COMPLETED" then
      match rest with
      | next_step :: _ =>
        ({ st with todo := rest },
         .message ⟨"✅ Step completed: " ++ current_step ++ "\n\n➡️  Continuing with: " ++ next_step,
                   "agent", true⟩)
      | [] =>
        ({ st with todo := rest }, .message ⟨"🎉 Task completed successfully.", "agent", false⟩)
    else (st, .message m)
  | .ok (.other tag) => (st, .other tag)

/-- `step`: plan if needed (a task-read failure propagates); with an empty
todo list return the terminal message without consulting the delegate;
otherwise hand the delegate the original history with the synthetic
instruction prepended and dispatch on its result. Returns the wrapper
state after the call together with the returned action. -/
def stepResult (env : Env) (st0 : AgentState) (history : List AgentAction) :
    Except String (AgentState × AgentAction) :=
  match doPlanning env st0 with
  | .error e => .error e
  | .ok st =>
    match st.todo with
    | [] => .ok (st, .message ⟨"All steps completed.", "agent", false⟩)
    | current_step :: rest =>
      let extended_history := syntheticMessage current_step rest.length :: history
      .ok (handleDelegate st current_step rest (env.delegate extended_history))

/-- `reset`: clear the todo list and the planning flag and forward the
reset to the delegate (whose opaque internal state has type `δ`). -/
def reset {δ : Type} (codeactReset : δ → δ) ( _st : AgentState) (codeactState : δ) :
    AgentState × δ :=
  ({ todo := [], planning_done := false }, codeactReset codeactState)

/-- The completion check of Step 4, applied to the delegate's result: true
iff the delegate returned (rather than raised) a `MessageAction` whose
stripped content contains the completion token. -/
def completionDetected (r : Except String AgentAction) : Bool :=
  match r with
  | .ok (.message m) => pyContains (pyStrip m.content) "STEP COMPLETED"
  | _ => false

/-- A string that starts with a bullet/numbering symbol. -/
def bulletPrefixed (s : String) : Bool :=
  match s.data with
  | [] => false
  | c :: _ => isBulletChar c

/-! ### String lemmas -/

lemma rev_infix_iff (l₁ l₂ : List Char) : l₁.reverse <:+: l₂.reverse ↔ l₁ <:+: l₂ :=
  List.reverse_infix

lemma rev_prefix_iff (l₁ l₂ : List Char) : l₁.reverse <+: l₂.reverse ↔ l₁ <:+ l₂ :=
  List.reverse_prefix

lemma isPrefixOf_eq_true_iff (l₁ l₂ : List Char) : l₁.isPrefixOf l₂ = true ↔ l₁ <+: l₂ :=
  List.isPrefixOf_iff_prefix

lemma listContains_iff (l pat : List Char) : listContains l pat = true ↔ pat <:+: l := by
  induction l with
  | nil => simp [listContains, List.isEmpty_iff, List.infix_nil]
  | cons x t ih =>
    simp only [listContains, Bool.or_eq_true, ih, isPrefixOf_eq_true_iff]
    rw [List.infix_cons_iff]

lemma pyContains_iff (s pat : String) : pyContains s pat = true ↔ pat.data <:+: s.data :=
  listContains_iff s.data pat.data

/-- A pattern occurring inside a list still occurs after `dropWhile p`
when its first element does not satisfy `p`. -/
lemma infix_dropWhile (p : Char → Bool) (c : Char) (tok1 l : List Char)
    (hc : p c = false) (h : (c :: tok1) <:+: l) : (c :: tok1) <:+: l.dropWhile p := by
  obtain ⟨s, t, rfl⟩ := h
  induction s with
  | nil =>
    simp only [List.nil_append, List.cons_append]
    rw [List.dropWhile_cons_of_neg (by simp [hc])]
    exact ⟨[], t, by simp⟩
  | cons x s' ih =>
    by_cases hx : p x = true
    · rw [show (x :: s') ++ (c :: tok1) ++ t = x :: (s' ++ (c :: tok1) ++ t) by simp,
        List.dropWhile_cons_of_pos hx]
      exact ih
    · rw [show (x :: s') ++ (c :: tok1) ++ t = x :: (s' ++ (c :: tok1) ++ t) by simp,
        List.dropWhile_cons_of_neg hx]
      exact ⟨x :: s', t, by simp⟩

/-- Stripping only removes characters from the two ends. -/
lemma stripChars_within (l : List Char) : stripChars l <:+: l := by
  have h1 : l.dropWhile isSpaceChar <:+ l := List.dropWhile_suffix _
  have h2 : (l.dropWhile isSpaceChar).reverse.dropWhile isSpaceChar <:+
      (l.dropWhile isSpaceChar).reverse := List.dropWhile_suffix _
  have h3 : ((l.dropWhile isSpaceChar).reverse.dropWhile isSpaceChar).reverse <+:
      l.dropWhile isSpaceChar := by
    have h4 := (rev_prefix_iff _ _).mpr h2
    rwa [List.reverse_reverse] at h4
  exact (h3.isInfix).trans (h1.isInfix)

/-- A pattern whose first and last characters are not whitespace occurs in
a list iff it occurs in the stripped list. -/
lemma infix_stripChars_iff (tok l : List Char) (c d : Char) (tok1 tok2 : List Char)
    (h1 : tok = c :: tok1) (hc : isSpaceChar c = false)
    (h2 : tok.reverse = d :: tok2) (hd : isSpaceChar d = false) :
    tok <:+: stripChars l ↔ tok <:+: l := by
  constructor
  · intro h
    exact h.trans (stripChars_within l)
  · intro h
    unfold stripChars
    have s1 : tok <:+: l.dropWhile isSpaceChar := by
      rw [h1] at h ⊢
      exact infix_dropWhile isSpaceChar c tok1 l hc h
    have s2 : tok.reverse <:+: (l.dropWhile isSpaceChar).reverse :=
      (rev_infix_iff _ _).mpr s1
    have s3 : tok.reverse <:+: (l.dropWhile isSpaceChar).reverse.dropWhile isSpaceChar := by
      rw [h2] at s2 ⊢
      exact infix_dropWhile isSpaceChar d tok2 _ hd s2
    have s4 : tok.reverse <:+:
        (((l.dropWhile isSpaceChar).reverse.dropWhile isSpaceChar).reverse).reverse := by
      rwa [List.reverse_reverse]
    exact (rev_infix_iff _ _).mp s4

/-- The completion-token test of Step 4 (containment in the stripped
content) agrees with containment anywhere in the raw content: the token
starts and ends with non-whitespace characters, so stripping cannot
destroy or create an occurrence. -/
lemma token_strip_iff (s : String) :
    pyContains (pyStrip s) "STEP COMPLETED" = true ↔
      ("STEP COMPLETED").data <:+: s.data := by
  rw [pyContains_iff]
  exact infix_stripChars_iff ("STEP COMPLETED").data s.data 'S' 'D'
    ("TEP COMPLETED").data ("ETELPMOC PETS").data (by decide) (by decide) (by decide) (by decide)

/-! ### Unfolding lemmas for `stepResult` -/

/-- After planning, an empty todo list short-circuits to the terminal
message; the delegate function is not applied. -/
lemma stepResult_planned_nil (env : Env) (st : AgentState) (history : List AgentAction)
    (hp : st.planning_done = true) (ht : st.todo = []) :
    stepResult env st history =
      .ok (st, .message ⟨"All steps completed.", "agent", false⟩) := by
  have hplan : doPlanning env st = .ok st := by
    simp [doPlanning, hp]
  simp [stepResult, hplan, ht]

/-- After planning, with a non-empty todo list, `step` applies the
delegate exactly to the synthetic instruction prepended to the original
history and dispatches on the result. -/
lemma stepResult_planned_cons (env : Env) (st : AgentState) (history : List AgentAction)
    (current_step : String) (rest : List String)
    (hp : st.planning_done = true) (ht : st.todo = current_step :: rest) :
    stepResult env st history =
      .ok (handleDelegate st current_step rest
        (env.delegate (syntheticMessage current_step rest.length :: history))) := by
  have hplan : doPlanning env st = .ok st := by
    simp [doPlanning, hp]
  simp [stepResult, hplan, ht]

/-- `handleDelegate` pops the head of the todo list exactly when the
delegate returned a message action containing the completion token, and
otherwise leaves the state untouched. -/
lemma handleDelegate_todo (st : AgentState) (current_step : String) (rest : List String)
    (r : Except String AgentAction) :
    (handleDelegate st current_step rest r).1 =
      if completionDetected r then { st with todo := rest } else st := by
  match r with
  | .error e => rfl
  | .ok (.other tag) => rfl
  | .ok (.message m) =>
    by_cases h : pyContains (pyStrip m.content) "STEP COMPLETED" = true
    · cases rest <;> simp [handleDelegate, completionDetected, h]
    · simp [handleDelegate, completionDetected, h]

/-! ### Parsing lemmas for `_generate_todo` -/

lemma parseSteps_length_le (content : String) : (parseSteps content).length ≤ 10 := by
  unfold parseSteps
  exact List.length_take_le _ _

/-- Every string kept by the response parser has stripped length above 2,
does not start with a bullet symbol, and is not a header line. -/
lemma parseSteps_mem (content s : String) (hs : s ∈ parseSteps content) :
    ∃ line, line ∈ pySplitlines (pyStrip content) ∧
      s = pyStrip line ∧ isBulletLine line = false ∧ 2 < (pyStrip line).length ∧
      pyLower s ≠ "steps:" ∧ pyLower s ≠ "step:" := by
  unfold parseSteps at hs
  have hs1 := List.mem_of_mem_take hs
  rw [List.mem_filter] at hs1
  obtain ⟨hs2, hhdr⟩ := hs1
  rw [List.mem_map] at hs2
  obtain ⟨line, hline, hstrip⟩ := hs2
  rw [List.mem_filter] at hline
  obtain ⟨hmem, hcond⟩ := hline
  simp only [Bool.and_eq_true, Bool.not_eq_true', decide_eq_true_eq] at hcond
  simp only [Bool.not_eq_true', Bool.or_eq_false_iff, decide_eq_false_iff_not] at hhdr
  refine ⟨line, hmem, hstrip.symm, ?_, ?_, hhdr.1, hhdr.2⟩
  · exact hcond.2
  · have := hcond.1
    omega

/-- The first non-whitespace character survives stripping, so a line that
does not match the bullet regex strips to a string that does not start
with a bullet symbol. -/
lemma bulletPrefixed_pyStrip (line : String) (h : isBulletLine line = false) :
    bulletPrefixed (pyStrip line) = false := by
  unfold isBulletLine at h
  show bulletPrefixed ⟨stripChars line.data⟩ = false
  unfold bulletPrefixed stripChars
  cases hm : line.data.dropWhile isSpaceChar with
  | nil => simp [hm]
  | cons c t =>
    rw [hm] at h
    have hpre : ((c :: t).reverse.dropWhile isSpaceChar).reverse <+: (c :: t) := by
      have h2 : (c :: t).reverse.dropWhile isSpaceChar <:+ (c :: t).reverse :=
        List.dropWhile_suffix _
      have h3 := (rev_prefix_iff _ _).mpr h2
      rwa [List.reverse_reverse] at h3
    simp only [hm]
    cases hx : ((c :: t).reverse.dropWhile isSpaceChar).reverse with
    | nil => simp
    | cons e r =>
      rw [hx] at hpre
      have he : e = c := (List.cons_prefix_cons.mp hpre).1
      simpa [he] using h

/-! ### Concrete environments and states used to instantiate theorems -/

def delegateSaysDone : List AgentAction → Except String AgentAction :=
  fun _ => .ok (.message ⟨"STEP COMPLETED", "agent", false⟩)

def envDone : Env :=
  ⟨.ok "some task", fun _ => .ok "Do a thing", delegateSaysDone⟩

def envBoom : Env :=
  ⟨.ok "some task", fun _ => .ok "Do a thing", fun _ => .error "boom"⟩

def envOther : Env :=
  ⟨.ok "some task", fun _ => .ok "Do a thing", fun _ => .ok (.other "echo STEP COMPLETED")⟩

def envNoFile : Env :=
  ⟨.error "No such file or directory: /instruction/task.md",
   fun _ => .ok "Do a thing", fun _ => .ok (.other "cmd")⟩

def envEmptyTask : Env :=
  ⟨.ok "", fun _ => .ok "Do a thing", fun _ => .ok (.other "cmd")⟩

def stateTwo : AgentState := ⟨["write code", "run tests"], true⟩

def stateOne : AgentState := ⟨["run tests"], true⟩

def stateEmpty : AgentState := ⟨[], true⟩

def freshState : AgentState := ⟨[], false⟩

def msgDone1 : AgentAction :=
  .message ⟨"✅ Step completed: write code\n\n➡️  Continuing with: run tests", "agent", true⟩

/-! ### Claim theorems -/

/-- C2: for every call to `step` in which planning is done and the step
list is empty, the wrapper returns the terminal completion message, and
the delegate's step function is never invoked on that call: the result is
the same for every delegate function. -/
theorem c2_empty_list_short_circuit (env : Env) (st : AgentState) (history : List AgentAction)
    (hp : st.planning_done = true) (ht : st.todo = []) :
    stepResult env st history =
      .ok (st, .message ⟨"All steps completed.", "agent", false⟩)
    ∧ ∀ d : List AgentAction → Except String AgentAction,
        stepResult { env with delegate := d } st history = stepResult env st history := by
  refine ⟨stepResult_planned_nil env st history hp ht, ?_⟩
  intro d
  rw [stepResult_planned_nil env st history hp ht,
    stepResult_planned_nil { env with delegate := d } st history hp ht]

theorem c2_witness :
    stateEmpty.planning_done = true ∧ stateEmpty.todo = [] ∧
    (stepResult envDone stateEmpty [] =
        .ok (stateEmpty, .message ⟨"All steps completed.", "agent", false⟩)
      ∧ ∀ d : List AgentAction → Except String AgentAction,
          stepResult { envDone with delegate := d } stateEmpty [] =
            stepResult envDone stateEmpty []) :=
  ⟨rfl, rfl, c2_empty_list_short_circuit envDone stateEmpty [] rfl rfl⟩

/-- C4 (amended): when the completion call raises, `_generate_todo` does
not propagate the error and returns the fixed fallback plan — which in
the code has five steps ("Understand the task and requirements", "Plan
the next steps", "Use coding or shell tools to make progress", "Test the
result", "Review and iterate"), not the four steps the claim lists. -/
theorem c4_fallback_on_error (llm : String → Except String String) (task e : String)
    (h : llm (buildPrompt task) = .error e) :
    generateTodo llm task =
      ["Understand the task and requirements",
       "Plan the next steps",
       "Use coding or shell tools to make progress",
       "Test the result",
       "Review and iterate"] := by
  unfold generateTodo
  rw [h]
  rfl

/-- C4 counterexample: on a failing completion call the returned fallback
is not the four-step sequence the claim states. -/
theorem c4_counterexample :
    generateTodo (fun _ => .error "network down") "build an app" ≠
      ["Understand the task", "Plan next steps", "Execute", "Verify"] := by
  decide

theorem c4_witness :
    (fun _ : String => (Except.error "network down" : Except String String))
        (buildPrompt "build an app") = .error "network down" ∧
    generateTodo (fun _ => .error "network down") "build an app" =
      ["Understand the task and requirements",
       "Plan the next steps",
       "Use coding or shell tools to make progress",
       "Test the result",
       "Review and iterate"] :=
  ⟨rfl, c4_fallback_on_error (fun _ => .error "network down") "build an app" "network down" rfl⟩

/-- C5 (amended): when the task blob is read successfully but is empty at
plan time, `step` installs the minimal fallback plan; a failed read,
however, is not caught and propagates out of `step`. -/
theorem c5_empty_task_fallback (env : Env) (st : AgentState)
    (hp : st.planning_done = false) (ht : env.taskRead = .ok "") :
    doPlanning env st = .ok ⟨["Analyze the task", "Ask for clarification"], true⟩ := by
  unfold doPlanning
  rw [hp, ht]
  simp

/-- C5 counterexample: a failing read of the task blob makes `step` raise
instead of recovering with the fallback plan. -/
theorem c5_counterexample :
    freshState.planning_done = false ∧
    stepResult envNoFile freshState [] =
      .error "No such file or directory: /instruction/task.md" :=
  ⟨rfl, rfl⟩

theorem c5_witness :
    freshState.planning_done = false ∧ envEmptyTask.taskRead = .ok "" ∧
    doPlanning envEmptyTask freshState =
      .ok ⟨["Analyze the task", "Ask for clarification"], true⟩ :=
  ⟨rfl, rfl, c5_empty_task_fallback envEmptyTask freshState rfl rfl⟩

/-- C6: the delegating call hands the delegate exactly the synthetic
instruction message prepended to the original history; the original
history value is passed through unchanged (the embedding is on immutable
values, and the theorem shows the same `history` appearing untouched as
the tail of the augmented copy, for every delegate and history). -/
theorem c6_history_copy (env : Env) (st : AgentState) (history : List AgentAction)
    (current_step : String) (rest : List String)
    (hp : st.planning_done = true) (ht : st.todo = current_step :: rest) :
    stepResult env st history =
      .ok (handleDelegate st current_step rest
        (env.delegate
          (AgentAction.message ⟨prefixMsg current_step rest.length, "user", true⟩ :: history))) := by
  rw [stepResult_planned_cons env st history current_step rest hp ht]
  rfl

theorem c6_witness :
    stateTwo.planning_done = true ∧ stateTwo.todo = "write code" :: ["run tests"] ∧
    stepResult envDone stateTwo [] =
      .ok (handleDelegate stateTwo "write code" ["run tests"]
        (envDone.delegate
          (AgentAction.message ⟨prefixMsg "write code" (["run tests"].length), "user", true⟩ :: []))) :=
  ⟨rfl, rfl, c6_history_copy envDone stateTwo [] "write code" ["run tests"] rfl rfl⟩

/-- C7: an exception raised by the delegate's step function is caught:
`step` returns the user-visible error message instead of propagating, and
the wrapper state (in particular the todo list) is unchanged. -/
theorem c7_delegate_error_caught (env : Env) (st : AgentState) (history : List AgentAction)
    (current_step : String) (rest : List String) (e : String)
    (hp : st.planning_done = true) (ht : st.todo = current_step :: rest)
    (hd : env.delegate (syntheticMessage current_step rest.length :: history) = .error e) :
    stepResult env st history =
      .ok (st, .message ⟨"Sorry, an error occurred while executing the step.", "agent", false⟩) := by
  rw [stepResult_planned_cons env st history current_step rest hp ht, hd]
  rfl

theorem c7_witness :
    stateTwo.planning_done = true ∧ stateTwo.todo = "write code" :: ["run tests"] ∧
    envBoom.delegate (syntheticMessage "write code" (["run tests"].length) :: []) = .error "boom" ∧
    stepResult envBoom stateTwo [] =
      .ok (stateTwo,
        .message ⟨"Sorry, an error occurred while executing the step.", "agent", false⟩) :=
  ⟨rfl, rfl, rfl, c7_delegate_error_caught envBoom stateTwo [] "write code" ["run tests"] "boom" rfl rfl rfl⟩

/-- C9: `reset` clears the step list and the planning flag (so the next
`step` call re-plans) and forwards the reset to the delegate. -/
theorem c9_reset {δ : Type} (codeactReset : δ → δ) (st : AgentState) (d : δ) :
    (reset codeactReset st d).1.todo = [] ∧
    (reset codeactReset st d).1.planning_done = false ∧
    (reset codeactReset st d).2 = codeactReset d :=
  ⟨rfl, rfl, rfl⟩

/-- C1: for every `step` call made after planning is done, exactly the
first element is removed from the step list when the delegate's reply is
a textual message containing the completion token, and zero elements are
removed otherwise; consequently the list only shrinks, never grows. -/
theorem c1_pop_exactly_on_completion (env : Env) (st st' : AgentState)
    (history : List AgentAction) (a : AgentAction)
    (hp : st.planning_done = true)
    (hr : stepResult env st history = .ok (st', a)) :
    (st.todo = [] → st'.todo = [])
    ∧ (∀ current_step rest, st.todo = current_step :: rest →
        (completionDetected
            (env.delegate (syntheticMessage current_step rest.length :: history)) = true →
          st'.todo = rest)
        ∧ (completionDetected
            (env.delegate (syntheticMessage current_step rest.length :: history)) = false →
          st'.todo = current_step :: rest))
    ∧ st'.todo.length ≤ st.todo.length := by
  cases ht : st.todo with
  | nil =>
    rw [stepResult_planned_nil env st history hp ht] at hr
    simp only [Except.ok.injEq, Prod.mk.injEq] at hr
    obtain ⟨h1, -⟩ := hr
    refine ⟨fun _ => ?_, fun cs rs hcs => ?_, ?_⟩
    · rw [← h1, ht]
    · exact absurd hcs (by simp)
    · rw [← h1, ht]
  | cons c r =>
    rw [stepResult_planned_cons env st history c r hp ht] at hr
    simp only [Except.ok.injEq] at hr
    have h1 : (handleDelegate st c r
        (env.delegate (syntheticMessage c r.length :: history))).1 = st' :=
      congrArg Prod.fst hr
    rw [handleDelegate_todo] at h1
    refine ⟨fun h0 => ?_, fun cs rs hcs => ?_, ?_⟩
    · exact absurd h0 (by simp)
    · injection hcs with e1 e2
      subst e1
      subst e2
      constructor
      · intro hc
        rw [if_pos hc] at h1
        rw [← h1]
      · intro hc
        rw [if_neg (by simp [hc])] at h1
        rw [← h1, ht]
    · by_cases hc : completionDetected
          (env.delegate (syntheticMessage c r.length :: history)) = true
      · rw [if_pos hc] at h1
        rw [← h1]
        simp
      · rw [if_neg hc] at h1
        rw [← h1, ht]

theorem c1_witness :
    stateTwo.planning_done = true ∧
    stepResult envDone stateTwo [] = .ok (stateOne, msgDone1) ∧
    ((stateTwo.todo = [] → stateOne.todo = [])
     ∧ (∀ current_step rest, stateTwo.todo = current_step :: rest →
         (completionDetected
             (envDone.delegate (syntheticMessage current_step rest.length :: ([] : List AgentAction))) = true →
           stateOne.todo = rest)
         ∧ (completionDetected
             (envDone.delegate (syntheticMessage current_step rest.length :: ([] : List AgentAction))) = false →
           stateOne.todo = current_step :: rest))
     ∧ stateOne.todo.length ≤ stateTwo.todo.length) :=
  ⟨rfl, rfl, c1_pop_exactly_on_completion envDone stateTwo stateOne [] msgDone1 rfl rfl⟩

/-- C3 (amended): for every task string, when the completion call
succeeds, `_generate_todo` returns a sequence of at most 10 strings, none
of which are empty, bullet-prefixed, or a literal header line — but the
sequence may be empty (the "non-empty" guarantee of the claim does not
hold). -/
theorem c3_plan_shape (llm : String → Except String String) (task content : String)
    (h : llm (buildPrompt task) = .ok content) :
    (generateTodo llm task).length ≤ 10 ∧
    ∀ s ∈ generateTodo llm task,
      s ≠ "" ∧ bulletPrefixed s = false ∧ pyLower s ≠ "steps:" ∧ pyLower s ≠ "step:" := by
  have hg : generateTodo llm task = parseSteps content := by
    unfold generateTodo
    rw [h]
  rw [hg]
  refine ⟨parseSteps_length_le content, ?_⟩
  intro s hs
  obtain ⟨line, -, hstrip, hbul, hlen, hh1, hh2⟩ := parseSteps_mem content s hs
  subst hstrip
  refine ⟨?_, bulletPrefixed_pyStrip line hbul, hh1, hh2⟩
  intro heq
  rw [heq] at hlen
  exact absurd hlen (by decide)

/-- C3 counterexample: a successful completion call whose response
consists of a single numbered line makes `_generate_todo` return the
empty sequence on a non-empty task, refuting the "non-empty" guarantee. -/
theorem c3_counterexample :
    generateTodo (fun _ => .ok "1. Do the thing") "write code" = [] := by
  decide

theorem c3_witness :
    (fun _ : String => (Except.ok "Write a sort function\nRun tests" : Except String String))
        (buildPrompt "sort the data") = .ok "Write a sort function\nRun tests" ∧
    ((generateTodo (fun _ => .ok "Write a sort function\nRun tests") "sort the data").length ≤ 10 ∧
     ∀ s ∈ generateTodo (fun _ => .ok "Write a sort function\nRun tests") "sort the data",
       s ≠ "" ∧ bulletPrefixed s = false ∧ pyLower s ≠ "steps:" ∧ pyLower s ≠ "step:") :=
  ⟨rfl, c3_plan_shape (fun _ => .ok "Write a sort function\nRun tests") "sort the data"
    "Write a sort function\nRun tests" rfl⟩

/-- C8 (amended): on a successful completion call the parser splits the
stripped response into lines and keeps only whitespace-stripped copies of
lines that are longer than 2 characters once stripped, do not start
(after leading whitespace) with a bullet or numbering symbol, and are not
header lines, truncating to at most 10 entries; a line with a
bullet/numbering prefix is discarded entirely, not kept with the prefix
trimmed. -/
theorem c8_parse_provenance (content s : String) (hs : s ∈ parseSteps content) :
    (parseSteps content).length ≤ 10 ∧
    ∃ line, line ∈ pySplitlines (pyStrip content) ∧
      s = pyStrip line ∧ isBulletLine line = false ∧ 2 < (pyStrip line).length ∧
      pyLower s ≠ "steps:" ∧ pyLower s ≠ "step:" :=
  ⟨parseSteps_length_le content, parseSteps_mem content s hs⟩

/-- C8 counterexample: the numbered line is discarded entirely — its
trimmed text "Install dependencies" is not kept. -/
theorem c8_counterexample :
    parseSteps "1. Install dependencies\nRun tests" = ["Run tests"] := by
  decide

theorem c8_witness :
    "Run tests" ∈ parseSteps "1. Install dependencies\nRun tests" ∧
    ((parseSteps "1. Install dependencies\nRun tests").length ≤ 10 ∧
     ∃ line, line ∈ pySplitlines (pyStrip "1. Install dependencies\nRun tests") ∧
       "Run tests" = pyStrip line ∧ isBulletLine line = false ∧ 2 < (pyStrip line).length ∧
       pyLower "Run tests" ≠ "steps:" ∧ pyLower "Run tests" ≠ "step:") :=
  ⟨by decide, c8_parse_provenance "1. Install dependencies\nRun tests" "Run tests" (by decide)⟩

/-- C10: completion-token detection is substring containment on message
actions only — the step list is popped exactly when the delegate returned
a textual message whose content contains `STEP COMPLETED` anywhere (the
code tests the stripped content, which is equivalent), and any
non-message action is returned verbatim without a pop even if its text
representation contains the token. -/
theorem c10_token_detection (env : Env) (st st' : AgentState) (history : List AgentAction)
    (current_step : String) (rest : List String) (a a' : AgentAction)
    (hp : st.planning_done = true) (ht : st.todo = current_step :: rest)
    (hd : env.delegate (syntheticMessage current_step rest.length :: history) = .ok a)
    (hr : stepResult env st history = .ok (st', a')) :
    (st'.todo = rest ↔
      ∃ m : MessageAction, a = .message m ∧ ("STEP COMPLETED").data <:+: m.content.data)
    ∧ (∀ tag, a = .other tag → st' = st ∧ a' = .other tag) := by
  rw [stepResult_planned_cons env st history current_step rest hp ht, hd] at hr
  simp only [Except.ok.injEq] at hr
  cases a with
  | message m =>
    have h1 : (handleDelegate st current_step rest (.ok (.message m))).1 = st' :=
      congrArg Prod.fst hr
    rw [handleDelegate_todo] at h1
    have hcdef : completionDetected (Except.ok (AgentAction.message m)) =
        pyContains (pyStrip m.content) "STEP COMPLETED" := rfl
    rw [hcdef] at h1
    constructor
    · by_cases hc : pyContains (pyStrip m.content) "STEP COMPLETED" = true
      · rw [if_pos hc] at h1
        constructor
        · intro _
          exact ⟨m, rfl, (token_strip_iff m.content).mp hc⟩
        · intro _
          rw [← h1]
      · rw [if_neg hc] at h1
        constructor
        · intro habs
          rw [← h1, ht] at habs
          exact absurd habs (List.cons_ne_self _ _)
        · rintro ⟨m', hm', hinf⟩
          obtain rfl : m = m' := by
            cases hm'
            rfl
          exact absurd ((token_strip_iff m.content).mpr hinf) hc
    · intro tag htag
      exact absurd htag (by simp)
  | other tag =>
    have hh : handleDelegate st current_step rest (.ok (.other tag)) = (st, .other tag) := rfl
    rw [hh] at hr
    simp only [Prod.mk.injEq] at hr
    obtain ⟨h1, h2⟩ := hr
    constructor
    · constructor
      · intro habs
        rw [← h1, ht] at habs
        exact absurd habs (List.cons_ne_self _ _)
      · rintro ⟨m, hm, -⟩
        exact absurd hm (by simp)
    · intro tag' htag'
      refine ⟨h1.symm, ?_⟩
      rw [← h2]
      exact htag'

theorem c10_witness :
    stateTwo.planning_done = true ∧
    stateTwo.todo = "write code" :: ["run tests"] ∧
    envOther.delegate (syntheticMessage "write code" (["run tests"].length) :: ([] : List AgentAction)) =
      .ok (.other "echo STEP COMPLETED") ∧
    stepResult envOther stateTwo [] = .ok (stateTwo, .other "echo STEP COMPLETED") ∧
    ((stateTwo.todo = ["run tests"] ↔
        ∃ m : MessageAction, AgentAction.other "echo STEP COMPLETED" = .message m ∧
          ("STEP COMPLETED").data <:+: m.content.data)
     ∧ (∀ tag, AgentAction.other "echo STEP COMPLETED" = .other tag →
          stateTwo = stateTwo ∧ AgentAction.other "echo STEP COMPLETED" = .other tag)) :=
  ⟨rfl, rfl, rfl, rfl,
    c10_token_detection envOther stateTwo stateTwo [] "write code" ["run tests"]
      (.other "echo STEP COMPLETED") (.other "echo STEP COMPLETED") rfl rfl rfl rfl⟩

end TodoAgent
